import Mathlib

set_option maxRecDepth 100000

/-
Verification of the event pipeline of the eBPF JSON-RPC telemetry agent
(agent_main.go together with the kernel-side tracer network_tracer_v2.c).

Shallow embedding conventions:
- Go byte slices are modelled as List Nat where every element is < 256.
- Go strings are modelled as List Char; a Go byte-to-string conversion is
  Char.ofNat on each byte (faithful for the ASCII data the heuristics touch).
- The perf-buffer read loop is modelled as a function over a list of read
  results; reverse DNS (net.LookupAddr) is an oracle parameter.
-/

/-- Little-endian value of a byte list, as binary.Read (binary.LittleEndian)
computes it field by field. -/
def leVal : List Nat → Nat
  | [] => 0
  | b :: bs => b + 256 * leVal bs

/-- Little-endian byte rendering of a value into a fixed width. -/
def leBytes : Nat → Nat → List Nat
  | 0, _ => []
  | n + 1, v => v % 256 :: leBytes n (v / 256)

/-- RPCEvent of agent_main.go: the Go struct binary.Read decodes from one
perf-buffer raw sample.  Fixed-width byte arrays are kept as byte lists. -/
structure RPCEvent where
  PID : Nat
  TimestampNs : Nat
  DataLen : Nat
  IsSend : Nat
  DestIP : Nat
  DestPort : Nat
  Comm : List Nat
  Data : List Nat
deriving DecidableEq

/-- Packed wire size of RPCEvent under binary.Read:
8 + 8 + 4 + 4 + 4 + 2 + 16 + 512 = 558 bytes. -/
def rpcEventSize : Nat := 558

/-- binary.Read of an RPCEvent from a byte buffer: reads the first 558 bytes
little-endian (extra trailing bytes in the buffer are ignored, exactly as
binary.Read leaves unread bytes in the bytes.Buffer); fails when fewer than
558 bytes are available.  Total by construction, mirroring that binary.Read
returns an error and never panics. -/
def decodeRPCEvent (buf : List Nat) : Option RPCEvent :=
  if rpcEventSize ≤ buf.length then
    some
      { PID := leVal (buf.take 8)
        TimestampNs := leVal ((buf.drop 8).take 8)
        DataLen := leVal ((buf.drop 16).take 4)
        IsSend := leVal ((buf.drop 20).take 4)
        DestIP := leVal ((buf.drop 24).take 4)
        DestPort := leVal ((buf.drop 28).take 2)
        Comm := (buf.drop 30).take 16
        Data := (buf.drop 46).take 512 }
  else none

/-- Re-encoding of the decoded fields in the same little-endian layout
(the inverse direction of the wire format, for the round-trip property). -/
def encodeRPCEvent (e : RPCEvent) : List Nat :=
  leBytes 8 e.PID ++ leBytes 8 e.TimestampNs ++ leBytes 4 e.DataLen ++
    leBytes 4 e.IsSend ++ leBytes 4 e.DestIP ++ leBytes 2 e.DestPort ++
    e.Comm ++ e.Data

theorem leBytes_leVal : ∀ xs : List Nat, (∀ b ∈ xs, b < 256) →
    leBytes xs.length (leVal xs) = xs := by
  intro xs
  induction xs with
  | nil => intro _; rfl
  | cons b bs ih =>
    intro h
    have hb : b < 256 := h b (List.mem_cons_self b bs)
    have hrest : ∀ x ∈ bs, x < 256 := fun x hx => h x (List.mem_cons_of_mem b hx)
    have h1 : (b + 256 * leVal bs) % 256 = b := by omega
    have h2 : (b + 256 * leVal bs) / 256 = leVal bs := by omega
    show leBytes (bs.length + 1) (leVal (b :: bs)) = b :: bs
    simp only [leBytes, leVal, h1, h2, ih hrest]

/-- Claim C3 counterexample: a 560-byte all-zero buffer (560 is in fact what
the kernel emits, since the C struct is padded to 560) has a length different
from the fixed packed record size, yet decoding succeeds. -/
theorem oversize_buffer_decodes :
    (List.replicate 560 (0 : Nat)).length ≠ rpcEventSize ∧
      (decodeRPCEvent (List.replicate 560 (0 : Nat))).isSome = true := by
  constructor
  · decide
  · decide

/-- Claim C3 (amended): decode fails exactly when the buffer is shorter than
the fixed 558-byte record size; longer buffers decode successfully from their
first 558 bytes.  Decode is a total function, so it never panics. -/
theorem decode_none_iff_short :
    ∀ buf : List Nat, decodeRPCEvent buf = none ↔ buf.length < rpcEventSize := by
  intro buf
  unfold decodeRPCEvent
  by_cases h : rpcEventSize ≤ buf.length
  · rw [if_pos h]
    constructor
    · intro hx; exact Option.noConfusion hx
    · intro hlt; exact absurd hlt (by omega)
  · rw [if_neg h]
    constructor
    · intro _; omega
    · intro _; rfl

/-- Claim C4: for a buffer of exactly the fixed record size made of genuine
bytes, decoding and then re-encoding the decoded fields in the same layout
reproduces the buffer bit for bit. -/
theorem decode_encode_roundtrip :
    ∀ (buf : List Nat) (e : RPCEvent), buf.length = rpcEventSize →
      (∀ b ∈ buf, b < 256) → decodeRPCEvent buf = some e →
      encodeRPCEvent e = buf := by
  intro buf e hlen hb hdec
  have h558 : buf.length = 558 := hlen
  have hle : rpcEventSize ≤ buf.length := le_of_eq hlen.symm
  unfold decodeRPCEvent at hdec
  rw [if_pos hle] at hdec
  have he := Option.some.inj hdec
  subst he
  have hmem : ∀ o n : Nat, ∀ b ∈ (buf.drop o).take n, b < 256 := by
    intro o n b hbm
    exact hb b (List.drop_subset o buf (List.take_subset n (buf.drop o) hbm))
  have hmem0 : ∀ b ∈ buf.take 8, b < 256 := by
    intro b hbm
    exact hb b (List.take_subset 8 buf hbm)
  have hlen' : ∀ o n : Nat, o + n ≤ 558 → ((buf.drop o).take n).length = n := by
    intro o n h
    rw [List.length_take, List.length_drop, h558]
    exact inf_eq_left.mpr (by omega)
  have key : ∀ o n : Nat, o + n ≤ 558 →
      leBytes n (leVal ((buf.drop o).take n)) = (buf.drop o).take n := by
    intro o n h
    have hl := hlen' o n h
    nth_rewrite 1 [← hl]
    exact leBytes_leVal _ (hmem o n)
  have key0 : leBytes 8 (leVal (buf.take 8)) = buf.take 8 := by
    have hl : (buf.take 8).length = 8 := by
      rw [List.length_take, h558]
      decide
    nth_rewrite 1 [← hl]
    exact leBytes_leVal _ hmem0
  unfold encodeRPCEvent
  dsimp only
  rw [key0, key 8 8 (by omega), key 16 4 (by omega), key 20 4 (by omega),
    key 24 4 (by omega), key 28 2 (by omega)]
  have g46 : (buf.drop 46).take 512 = buf.drop 46 := by
    have h := List.drop_take_append_drop buf 46 512
    rw [show (46 + 512 : Nat) = 558 from rfl,
      List.drop_eq_nil_of_le (le_of_eq h558), List.append_nil] at h
    exact h
  have g30 : (buf.drop 30).take 16 ++ buf.drop 46 = buf.drop 30 :=
    List.drop_take_append_drop buf 30 16
  have g28 : (buf.drop 28).take 2 ++ buf.drop 30 = buf.drop 28 :=
    List.drop_take_append_drop buf 28 2
  have g24 : (buf.drop 24).take 4 ++ buf.drop 28 = buf.drop 24 :=
    List.drop_take_append_drop buf 24 4
  have g20 : (buf.drop 20).take 4 ++ buf.drop 24 = buf.drop 20 :=
    List.drop_take_append_drop buf 20 4
  have g16 : (buf.drop 16).take 4 ++ buf.drop 20 = buf.drop 16 :=
    List.drop_take_append_drop buf 16 4
  have g8 : (buf.drop 8).take 8 ++ buf.drop 16 = buf.drop 8 :=
    List.drop_take_append_drop buf 8 8
  simp only [List.append_assoc]
  rw [g46, g30, g28, g24, g20, g16, g8]
  exact List.take_append_drop 8 buf

/-- Witness for C4 at the concrete all-zero 558-byte buffer. -/
theorem decode_encode_roundtrip_witness :
    encodeRPCEvent
        ⟨0, 0, 0, 0, 0, 0, List.replicate 16 0, List.replicate 512 0⟩ =
      List.replicate 558 0 :=
  decode_encode_roundtrip (List.replicate 558 0) _ (by decide) (by decide)
    (by decide)

/-- bytes.TrimRight(b, "\x00"): strip all trailing zero bytes. -/
def trimNulRight (bs : List Nat) : List Nat :=
  (bs.reverse.dropWhile (fun b => b == 0)).reverse

/-- Go conversion of a byte slice to a string, byte for byte. -/
def bytesToChars (bs : List Nat) : List Char :=
  bs.map Char.ofNat

/-- Decimal digit character. -/
def digitChar (d : Nat) : Char := Char.ofNat (48 + d)

/-- Decimal rendering with fuel (fuel n + 1 suffices for value n). -/
def natDecimalAux : Nat → Nat → List Char
  | 0, _ => []
  | fuel + 1, n =>
    if n < 10 then [digitChar n]
    else natDecimalAux fuel (n / 10) ++ [digitChar (n % 10)]

/-- fmt %d of a natural number. -/
def natDecimal (n : Nat) : List Char := natDecimalAux (n + 1) n

/-- ipToString of agent_main.go: fmt.Sprintf("%d.%d.%d.%d", byte(ip),
byte(ip>>8), byte(ip>>16), byte(ip>>24)); a right shift by k is division
by 2^k and the byte cast is reduction mod 256. -/
def ipToString (ip : Nat) : List Char :=
  natDecimal (ip % 256) ++ '.' :: natDecimal (ip / 256 % 256) ++
    '.' :: natDecimal (ip / 65536 % 256) ++ '.' :: natDecimal (ip / 16777216 % 256)

/-- strings.TrimSuffix(s, "."): remove one trailing dot if present. -/
def trimSuffixDot (s : List Char) : List Char :=
  if s.getLast? = some '.' then s.dropLast else s

/-- strings.ReplaceAll(s, ".", "-") for the single-character pattern. -/
def replaceDotsWithHyphens : List Char → List Char
  | [] => []
  | c :: cs => (if c = '.' then '-' else c) :: replaceDotsWithHyphens cs

/-- Outcome oracle for net.LookupAddr keyed by the queried address string:
none models a lookup error, some gives the returned name list. -/
def DnsOracle : Type := List Char → Option (List (List Char))

/-- getHostnameFromIP of agent_main.go: on a successful lookup with at least
one name, trim a trailing dot from the first name and replace dots with
hyphens; otherwise hyphenate the dotted address itself. -/
def getHostnameFromIP (dns : DnsOracle) (ipStr : List Char) : List Char :=
  match dns ipStr with
  | some (name :: _) => replaceDotsWithHyphens (trimSuffixDot name)
  | _ => replaceDotsWithHyphens ipStr

/-- A DNS oracle whose lookups always fail. -/
def noDns : DnsOracle := fun _ => none

/-- Go regexp class \s (RE2 Perl class): [\t\n\f\r ]. -/
def isRegexSpace (c : Char) : Bool :=
  c = ' ' || c = '\t' || c = '\n' || c = '\x0c' || c = '\r'

/-- Go regexp class [a-zA-Z0-9_]. -/
def isWordChar (c : Char) : Bool :=
  c.isAlpha || c.isDigit || c = '_'

/-- Consume an exact literal from the front of a character list. -/
def dropLit : List Char → List Char → Option (List Char)
  | [], s => some s
  | _ :: _, [] => none
  | p :: ps, c :: cs => if c = p then dropLit ps cs else none

/-- strings.Contains, via the decidable infix relation on character lists. -/
def hasSub (needle hay : List Char) : Bool :=
  decide (needle <:+: hay)

/-- One anchored attempt of the regexp
"method"\s*:\s*"(eth_[a-zA-Z0-9_]+)" at the current position.  The greedy
captured run is forced: the maximal word-character run must be followed by a
closing quote, else no match starts here. -/
def methodCapture (s : List Char) : Option (List Char) :=
  match dropLit ("\"method\"".data) s with
  | none => none
  | some s1 =>
    match dropLit [':'] (s1.dropWhile isRegexSpace) with
    | none => none
    | some s3 =>
      match dropLit ['\"'] (s3.dropWhile isRegexSpace) with
      | none => none
      | some s5 =>
        match dropLit ("eth_".data) s5 with
        | none => none
        | some s6 =>
          match s6.takeWhile isWordChar, s6.dropWhile isWordChar with
          | [], _ => none
          | run, '\"' :: _ => some ("eth_".data ++ run)
          | _, _ => none

/-- regexp.FindStringSubmatch: leftmost match of the pattern, scanning
positions left to right. -/
def findMethodMatch : List Char → Option (List Char)
  | [] => none
  | c :: cs =>
    match methodCapture (c :: cs) with
    | some m => some m
    | none => findMethodMatch cs

/-- extractETHMethodFromPayload of agent_main.go: regexp first, then the
fixed substring fallback guarded by "POST /", else "unknown". -/
def extractETHMethodFromPayload (payload : List Char) : List Char :=
  match findMethodMatch payload with
  | some m => m
  | none =>
    if hasSub ("POST /".data) payload then
      if hasSub ("eth_call".data) payload then "eth_call".data
      else if hasSub ("eth_sendTransaction".data) payload then
        "eth_sendTransaction".data
      else if hasSub ("eth_getBalance".data) payload then
        "eth_getBalance".data
      else "unknown".data
    else "unknown".data

/-- Protocol segment of processAndPublishRPCEvent: "https" by default,
"http" only for ports 8545 and 8547. -/
def protocolFor (port : Nat) : List Char :=
  if port = 8545 ∨ port = 8547 then "http".data else "https".data

/-- Metric segment: "request" for a send event (IsSend = 1), else
"response". -/
def metricTypeFor (isSend : Nat) : List Char :=
  if isSend = 1 then "request".data else "response".data

/-- Direction detail: "send" for IsSend = 1, else "recv". -/
def directionFor (isSend : Nat) : List Char :=
  if isSend = 1 then "send".data else "recv".data

/-- fmt.Sprintf("rpc.%s.%s.%s.%s_size", host, proto, method, metric). -/
def mkSubject (host proto method metric : List Char) : List Char :=
  "rpc.".data ++ host ++ '.' :: proto ++ '.' :: method ++
    '.' :: metric ++ "_size".data

/-- MonitoringFeature as published to NATS, restricted to the fields the
pipeline computes deterministically (the wall-clock timestamp taken at
extraction time is omitted; value is float64(DataLen), exact for uint32,
kept as Nat). -/
structure MonitoringFeature where
  appId : List Char
  protocol : List Char
  featureType : List Char
  value : Nat
  contextHash : List Char
  method : List Char
  direction : List Char
  destIP : List Char
  destHostname : List Char
  processName : List Char
deriving DecidableEq

/-- processAndPublishRPCEvent of agent_main.go as a pure feature builder:
it unconditionally produces exactly one feature per decoded event, handing
it to the publisher. -/
def processAndPublishRPCEvent (dns : DnsOracle) (appId : List Char)
    (e : RPCEvent) : MonitoringFeature :=
  let processName := bytesToChars (trimNulRight e.Comm)
  let destIPStr := ipToString e.DestIP
  let destHostname := getHostnameFromIP dns destIPStr
  let metricType := metricTypeFor e.IsSend
  let payload := bytesToChars (trimNulRight e.Data)
  let ethMethod := extractETHMethodFromPayload payload
  let proto := protocolFor e.DestPort
  let subject := mkSubject destHostname proto ethMethod metricType
  { appId := appId
    protocol := "jsonrpc".data
    featureType := metricType ++ "_size".data
    value := e.DataLen
    contextHash := subject
    method := ethMethod
    direction := directionFor e.IsSend
    destIP := destIPStr
    destHostname := destHostname
    processName := processName }

/-- One result of PerfReader.Read(): the clean closed signal (perf.ErrClosed),
any other read error, or a record carrying a lost-sample count and the raw
sample bytes. -/
inductive ReadResult where
  | closed : ReadResult
  | readErr : ReadResult
  | sample (lost : Nat) (raw : List Nat) : ReadResult
deriving DecidableEq

/-- Log lines the loop can emit, by site. -/
inductive LogLine where
  | closedMsg : LogLine
  | readErrMsg : LogLine
  | lossWarn (n : Nat) : LogLine
  | decodeFailMsg : LogLine
deriving DecidableEq

/-- Per-iteration output of the loop body: log lines and published features
for one read result. -/
def stepOut (dns : DnsOracle) (appId : List Char) (r : ReadResult) :
    List LogLine × List MonitoringFeature :=
  match r with
  | ReadResult.closed => ([LogLine.closedMsg], [])
  | ReadResult.readErr => ([LogLine.readErrMsg], [])
  | ReadResult.sample lost raw =>
    let warn := if 0 < lost then [LogLine.lossWarn lost] else []
    match decodeRPCEvent raw with
    | none => (warn ++ [LogLine.decodeFailMsg], [])
    | some e => (warn, [processAndPublishRPCEvent dns appId e])

/-- readAndProcessEvents of agent_main.go over a stream of read results:
return on the closed signal, log and continue on a read error, warn on a
nonzero loss count, log and continue on a decode failure, otherwise extract
and publish, then continue. -/
def readAndProcessEvents (dns : DnsOracle) (appId : List Char) :
    List ReadResult → List LogLine × List MonitoringFeature
  | [] => ([], [])
  | r :: rest =>
    let o := stepOut dns appId r
    if r = ReadResult.closed then o
    else
      let o2 := readAndProcessEvents dns appId rest
      (o.1 ++ o2.1, o.2 ++ o2.2)

/-- Inputs of the kernel-side kprobe handler in network_tracer_v2.c that
determine its control flow: process comm, declared size, socket family and
destination of the socket. -/
structure SendmsgCtx where
  pid : Nat
  timestampNs : Nat
  comm : List Nat
  size : Nat
  sockFamily : Nat
  destIP : Nat
  destPort : Nat

/-- network_event_t as emitted to the perf buffer. -/
structure NetworkEvent where
  pid : Nat
  timestampNs : Nat
  dataLen : Nat
  isSend : Nat
  destIP : Nat
  destPort : Nat
  comm : List Nat
deriving DecidableEq

/-- The comm filter of trace_tcp_sendmsg: the first four bytes must spell
"node". -/
def isNodeComm (comm : List Nat) : Bool :=
  comm.take 4 == [110, 111, 100, 101]

/-- Address family constant AF_INET. -/
def AF_INET : Nat := 2

/-- trace_tcp_sendmsg of network_tracer_v2.c: emits at most one event per
firing; drops non-node comms, zero or oversized payloads, non-IPv4 sockets,
and every destination port outside the allow-list 443, 8545, 8547. -/
def trace_tcp_sendmsg (c : SendmsgCtx) : Option NetworkEvent :=
  if isNodeComm c.comm = false then none
  else if c.size = 0 ∨ 65536 < c.size then none
  else if c.sockFamily ≠ AF_INET then none
  else if c.destPort ≠ 443 ∧ c.destPort ≠ 8545 ∧ c.destPort ≠ 8547 then none
  else
    some
      { pid := c.pid
        timestampNs := c.timestampNs
        dataLen := c.size
        isSend := 1
        destIP := c.destIP
        destPort := c.destPort
        comm := c.comm }

/-- A concrete 558-byte raw sample whose only nonzero bytes are the
destination-port field at offsets 28 and 29, little-endian 9999. -/
def rawPort9999 : List Nat :=
  List.replicate 28 0 ++ 15 :: 39 :: List.replicate 528 0

/-- Claim C1 counterexample: a raw sample decoding to destination port 9999,
which is outside the allow-list, still yields exactly one published feature
from the userspace pipeline - the feature-extraction stage does not filter
by port. -/
theorem decoded_port9999_still_published :
    Option.map (fun e => e.DestPort) (decodeRPCEvent rawPort9999) = some 9999 ∧
      ((9999 : Nat) ≠ 443 ∧ (9999 : Nat) ≠ 8545 ∧ (9999 : Nat) ≠ 8547) ∧
      (readAndProcessEvents noDns [] [ReadResult.sample 0 rawPort9999]).2.length
        = 1 := by
  refine ⟨by decide, by decide, by decide⟩

/-- Claim C1 (amended): the port allow-list is enforced in the kernel-side
tracer, not at feature extraction: trace_tcp_sendmsg emits no record when the
destination port is outside 443, 8545, 8547, so no published event can arise
for such traffic; a decoded event that does reach the userspace stage is
published regardless of port (see the counterexample). -/
theorem port_filter_in_kernel_tracer :
    ∀ c : SendmsgCtx, c.destPort ≠ 443 → c.destPort ≠ 8545 →
      c.destPort ≠ 8547 → trace_tcp_sendmsg c = none := by
  intro c h1 h2 h3
  unfold trace_tcp_sendmsg
  split_ifs with g1 g2 g3 g4
  · rfl
  · rfl
  · rfl
  · rfl
  · exact absurd ⟨h1, h2, h3⟩ g4

/-- A concrete kprobe firing from a node process to port 9999. -/
def ctx9999 : SendmsgCtx :=
  { pid := 1
    timestampNs := 2
    comm := 110 :: 111 :: 100 :: 101 :: List.replicate 12 0
    size := 100
    sockFamily := 2
    destIP := 0
    destPort := 9999 }

/-- Witness for C1 at the concrete context. -/
theorem port_filter_in_kernel_tracer_witness :
    trace_tcp_sendmsg ctx9999 = none :=
  port_filter_in_kernel_tracer ctx9999 (by decide) (by decide) (by decide)

/-- Claim C2: feature extraction is total and never drops a decoded record:
processing one sample contributes exactly one published feature when the
decoder succeeds and exactly zero when the decoder itself fails, in both
cases continuing with the rest of the stream. -/
theorem extract_total_exactly_one_feature :
    ∀ (dns : DnsOracle) (appId : List Char) (lost : Nat) (raw : List Nat)
      (rest : List ReadResult),
      (readAndProcessEvents dns appId (ReadResult.sample lost raw :: rest)).2
        = (match decodeRPCEvent raw with
            | some e => [processAndPublishRPCEvent dns appId e]
            | none => []) ++ (readAndProcessEvents dns appId rest).2 := by
  intro dns appId lost raw rest
  have hne : ReadResult.sample lost raw ≠ ReadResult.closed := by
    intro h
    exact ReadResult.noConfusion h
  cases hdec : decodeRPCEvent raw with
  | none => simp [readAndProcessEvents, stepOut, hdec, hne]
  | some e => simp [readAndProcessEvents, stepOut, hdec, hne]

theorem replaceDots_contains_dot : ∀ l : List Char,
    (replaceDotsWithHyphens l).contains '.' = false := by
  intro l
  induction l with
  | nil => rfl
  | cons c cs ih =>
    by_cases hc : c = '.'
    · simp only [replaceDotsWithHyphens, if_pos hc, List.contains_cons, ih,
        Bool.or_false]
      decide
    · simp only [replaceDotsWithHyphens, if_neg hc, List.contains_cons, ih,
        Bool.or_false, beq_eq_false_iff_ne]
      exact fun h => hc h.symm

/-- Whether a label still ends in the topic separator. -/
def endsWithDot (s : List Char) : Bool :=
  s.getLast? == some '.'

theorem sanitize_no_dot_no_trailing : ∀ s : List Char,
    (replaceDotsWithHyphens s).contains '.' = false ∧
      endsWithDot (replaceDotsWithHyphens s) = false := by
  intro s
  refine ⟨replaceDots_contains_dot s, ?_⟩
  unfold endsWithDot
  cases hl : (replaceDotsWithHyphens s).getLast? with
  | none => rfl
  | some a =>
    have ha := List.mem_of_mem_getLast? hl
    have hnotin : a ∉ replaceDotsWithHyphens s ∨ a ≠ '.' := by
      by_cases he : a = '.'
      · subst he
        left
        have h := replaceDots_contains_dot s
        simpa using h
      · right; exact he
    have hne : a ≠ '.' := by
      cases hnotin with
      | inl h => exact absurd ha h
      | inr h => exact h
    simp [hne]

/-- Claim C7: for every DNS outcome and every input address string, the
destination label produced by getHostnameFromIP contains no dot and does not
end in the topic separator. -/
theorem sanitized_label_no_dots :
    ∀ (dns : DnsOracle) (ip : List Char),
      (getHostnameFromIP dns ip).contains '.' = false ∧
        endsWithDot (getHostnameFromIP dns ip) = false := by
  intro dns ip
  unfold getHostnameFromIP
  cases hd : dns ip with
  | none => exact sanitize_no_dot_no_trailing ip
  | some names =>
    cases names with
    | nil => exact sanitize_no_dot_no_trailing ip
    | cons n rest => exact sanitize_no_dot_no_trailing (trimSuffixDot n)

/-- Claim C9: the published subject carries protocolFor as its protocol
segment, and protocolFor yields "https" precisely when the destination port
is neither 8545 nor 8547 - port 443 gets no special treatment, and ports
outside the allow-list such as 9999 also fall into the "https" default. -/
theorem protocol_defaults_to_https :
    (∀ (dns : DnsOracle) (appId : List Char) (e : RPCEvent),
      (processAndPublishRPCEvent dns appId e).contextHash
        = mkSubject (getHostnameFromIP dns (ipToString e.DestIP))
            (protocolFor e.DestPort)
            (extractETHMethodFromPayload (bytesToChars (trimNulRight e.Data)))
            (metricTypeFor e.IsSend)) ∧
    (∀ port : Nat,
      protocolFor port = "https".data ↔ (port ≠ 8545 ∧ port ≠ 8547)) := by
  constructor
  · intro dns appId e
    rfl
  · intro port
    by_cases h : port = 8545 ∨ port = 8547
    · unfold protocolFor
      rw [if_pos h]
      constructor
      · intro he
        exact absurd he (by decide)
      · intro hne
        rcases h with h | h
        · exact absurd h hne.1
        · exact absurd h hne.2
    · unfold protocolFor
      rw [if_neg h]
      constructor
      · intro _
        exact ⟨fun h1 => h (Or.inl h1), fun h2 => h (Or.inr h2)⟩
      · intro _
        rfl

/-- Claim C10: for any four bytes laid down in memory order (the network-order
address as the kernel copied it), the little-endian decoded integer renders
with the least-significant byte first: the dotted quad prints the bytes in
their original memory order. -/
theorem ip_rendering_memory_order :
    ∀ b0 b1 b2 b3 : Nat, b0 < 256 → b1 < 256 → b2 < 256 → b3 < 256 →
      ipToString (leVal [b0, b1, b2, b3])
        = natDecimal b0 ++ '.' :: natDecimal b1 ++
            '.' :: natDecimal b2 ++ '.' :: natDecimal b3 := by
  intro b0 b1 b2 b3 h0 h1 h2 h3
  have e : leVal [b0, b1, b2, b3]
      = b0 + 256 * (b1 + 256 * (b2 + 256 * b3)) := by
    simp [leVal]
  unfold ipToString
  rw [e]
  have p0 : (b0 + 256 * (b1 + 256 * (b2 + 256 * b3))) % 256 = b0 := by omega
  have p1 : (b0 + 256 * (b1 + 256 * (b2 + 256 * b3))) / 256 % 256 = b1 := by
    omega
  have p2 : (b0 + 256 * (b1 + 256 * (b2 + 256 * b3))) / 65536 % 256 = b2 := by
    omega
  have p3 : (b0 + 256 * (b1 + 256 * (b2 + 256 * b3))) / 16777216 % 256
      = b3 := by omega
  rw [p0, p1, p2, p3]

/-- Witness for C10 at the loopback address bytes 127.0.0.1. -/
theorem ip_rendering_memory_order_witness :
    ipToString (leVal [127, 0, 0, 1])
      = natDecimal 127 ++ '.' :: natDecimal 0 ++
          '.' :: natDecimal 0 ++ '.' :: natDecimal 1 :=
  ip_rendering_memory_order 127 0 0 1 (by decide) (by decide) (by decide)
    (by decide)

theorem dropLit_eq : ∀ pre s rest : List Char,
    dropLit pre s = some rest → s = pre ++ rest := by
  intro pre
  induction pre with
  | nil =>
    intro s rest h
    have hs := Option.some.inj h
    rw [← hs]
    rfl
  | cons p ps ih =>
    intro s rest h
    cases s with
    | nil => exact Option.noConfusion h
    | cons c cs =>
      by_cases hc : c = p
      · subst hc
        have h' : dropLit ps cs = some rest := by
          simpa [dropLit] using h
        rw [List.cons_append]
        exact congrArg (List.cons c) (ih cs rest h')
      · exact absurd h (by simp [dropLit, hc])

theorem methodCapture_has_method : ∀ s m : List Char,
    methodCapture s = some m → ("\"method\"".data) <+: s := by
  intro s m h
  unfold methodCapture at h
  cases hd : dropLit ("\"method\"".data) s with
  | none =>
    rw [hd] at h
    exact Option.noConfusion h
  | some rest =>
    exact ⟨rest, (dropLit_eq _ _ _ hd).symm⟩

theorem findMethodMatch_has_method : ∀ p m : List Char,
    findMethodMatch p = some m → ("\"method\"".data) <:+: p := by
  intro p
  induction p with
  | nil =>
    intro m h
    exact Option.noConfusion h
  | cons c cs ih =>
    intro m h
    unfold findMethodMatch at h
    cases hm : methodCapture (c :: cs) with
    | some x =>
      obtain ⟨t, ht⟩ := methodCapture_has_method (c :: cs) x hm
      exact ⟨[], t, by simpa using ht⟩
    | none =>
      rw [hm] at h
      obtain ⟨u, v, huv⟩ := ih m h
      exact ⟨c :: u, v, by rw [List.cons_append, List.cons_append, huv]⟩

/-- Claim C5 counterexample: a payload with no "method" field at all is not
labelled "unknown": the fallback substring table fires on any payload
containing "POST /" together with a known method name. -/
theorem fallback_method_without_field :
    hasSub ("\"method\"".data) ("POST / eth_call".data) = false ∧
      extractETHMethodFromPayload ("POST / eth_call".data) = "eth_call".data ∧
      "eth_call".data ≠ "unknown".data := by
  refine ⟨by decide, by decide, by decide⟩

/-- Claim C5 (amended): the JSON-RPC example payload yields method
"eth_call" through the regexp; and a payload with no "method" field that
also does not contain the fallback marker "POST /" yields "unknown". -/
theorem method_sniffing_amended :
    extractETHMethodFromPayload
        ("\x7b\"jsonrpc\":\"2.0\",\"method\":\"eth_call\",\"params\":[]\x7d".data)
      = "eth_call".data ∧
    (∀ p : List Char, hasSub ("\"method\"".data) p = false →
      hasSub ("POST /".data) p = false →
      extractETHMethodFromPayload p = "unknown".data) := by
  constructor
  · decide
  · intro p h1 h2
    have hfind : findMethodMatch p = none := by
      cases hf : findMethodMatch p with
      | none => rfl
      | some m =>
        have hinf := findMethodMatch_has_method p m hf
        have htrue : hasSub ("\"method\"".data) p = true := by
          unfold hasSub
          exact decide_eq_true hinf
        rw [htrue] at h1
        exact Bool.noConfusion h1
    simp [extractETHMethodFromPayload, hfind, h2]

/-- Witness for C5 at a payload matching neither heuristic. -/
theorem method_sniffing_amended_witness :
    extractETHMethodFromPayload ("hello".data) = "unknown".data :=
  method_sniffing_amended.2 ("hello".data) (by decide) (by decide)

/-- Claim C6: a send event to port 443 whose payload sniffs to
"eth_getBalance" with declared length 342 is published under the subject
rpc.(destination label).https.eth_getBalance.request_size with value 342. -/
theorem send443_getbalance_subject :
    ∀ (dns : DnsOracle) (appId : List Char) (e : RPCEvent),
      e.IsSend = 1 → e.DestPort = 443 →
      extractETHMethodFromPayload (bytesToChars (trimNulRight e.Data))
        = "eth_getBalance".data →
      e.DataLen = 342 →
      (processAndPublishRPCEvent dns appId e).contextHash
          = "rpc.".data ++ getHostnameFromIP dns (ipToString e.DestIP) ++
              ".https.eth_getBalance.request_size".data ∧
        (processAndPublishRPCEvent dns appId e).value = 342 := by
  intro dns appId e hs hp hm hl
  constructor
  · show mkSubject (getHostnameFromIP dns (ipToString e.DestIP))
        (protocolFor e.DestPort)
        (extractETHMethodFromPayload (bytesToChars (trimNulRight e.Data)))
        (metricTypeFor e.IsSend) = _
    rw [hm, hp, hs]
    show mkSubject (getHostnameFromIP dns (ipToString e.DestIP))
        ("https".data) ("eth_getBalance".data) ("request".data) = _
    unfold mkSubject
    simp only [List.append_assoc]
    congr 1
  · exact hl

/-- A concrete send record to 127.0.0.1:443 carrying an eth_getBalance
JSON-RPC request. -/
def evGetBalance : RPCEvent :=
  { PID := 7
    TimestampNs := 123
    DataLen := 342
    IsSend := 1
    DestIP := 16777343
    DestPort := 443
    Comm := 110 :: 111 :: 100 :: 101 :: List.replicate 12 0
    Data :=
      ("POST / HTTP/1.1 \x7b\"jsonrpc\":\"2.0\",\"method\":\"eth_getBalance\",\"params\":[]\x7d".data).map
        Char.toNat }

/-- Witness for C6 at the concrete record. -/
theorem send443_getbalance_subject_witness :
    (processAndPublishRPCEvent noDns [] evGetBalance).contextHash
        = "rpc.".data ++
            getHostnameFromIP noDns (ipToString evGetBalance.DestIP) ++
            ".https.eth_getBalance.request_size".data ∧
      (processAndPublishRPCEvent noDns [] evGetBalance).value = 342 :=
  send443_getbalance_subject noDns [] evGetBalance rfl rfl (by decide) rfl

/-- Claim C8: the loop consumes every read before the first closed signal -
read errors, loss warnings and decode failures are logged and the loop
continues - and stops exactly at the closed signal, ignoring everything
after it; a nonzero loss count contributes its warning log line while the
record is still processed. -/
theorem loop_stops_only_on_closed :
    (∀ (dns : DnsOracle) (appId : List Char) (xs ys : List ReadResult),
      (∀ r ∈ xs, r ≠ ReadResult.closed) →
      readAndProcessEvents dns appId (xs ++ ReadResult.closed :: ys)
        = ((xs.map fun r => (stepOut dns appId r).1).flatten ++
              [LogLine.closedMsg],
            (xs.map fun r => (stepOut dns appId r).2).flatten)) ∧
    (∀ (dns : DnsOracle) (appId : List Char) (lost : Nat) (raw : List Nat),
      0 < lost →
      LogLine.lossWarn lost
        ∈ (stepOut dns appId (ReadResult.sample lost raw)).1) := by
  constructor
  · intro dns appId xs ys h
    induction xs with
    | nil =>
      simp [readAndProcessEvents, stepOut]
    | cons r rs ih =>
      have hr : r ≠ ReadResult.closed := h r (List.mem_cons_self r rs)
      have hrs : ∀ x ∈ rs, x ≠ ReadResult.closed :=
        fun x hx => h x (List.mem_cons_of_mem r hx)
      simp only [List.cons_append, readAndProcessEvents, if_neg hr,
        List.append_eq]
      rw [ih hrs]
      simp [List.append_assoc]
  · intro dns appId lost raw h
    cases hdec : decodeRPCEvent raw with
    | none => simp [stepOut, hdec, h]
    | some e => simp [stepOut, hdec, h]

/-- Witness for C8 on a concrete stream holding a read error, a lossy
undecodable sample, the closed signal, and an unreachable trailing read. -/
theorem loop_stops_only_on_closed_witness :
    readAndProcessEvents noDns []
        ([ReadResult.readErr, ReadResult.sample 5 []] ++
          ReadResult.closed :: [ReadResult.readErr])
      = (([ReadResult.readErr, ReadResult.sample 5 []].map
              fun r => (stepOut noDns [] r).1).flatten ++ [LogLine.closedMsg],
          ([ReadResult.readErr, ReadResult.sample 5 []].map
              fun r => (stepOut noDns [] r).2).flatten) ∧
      LogLine.lossWarn 5 ∈ (stepOut noDns [] (ReadResult.sample 5 [])).1 :=
  ⟨loop_stops_only_on_closed.1 noDns [] _ _ (by decide),
    loop_stops_only_on_closed.2 noDns [] 5 [] (by decide)⟩
